import Mathlib

/-!
Shallow embedding of the selection-and-move-application core of the
`bevy_chess` repository (file `src/board.rs`).

The repository's core logic lives in the Bevy systems `select_square`,
`select_piece`, `move_piece`, `reset_selected` and `despawn_taken_pieces`.
They operate over:
  * the `chess` crate's `Game` (the external rules engine), queried through
    `current_position()` for `side_to_move`, `piece_on`, `en_passant`, and
    mutated only through `make_move`;
  * a registry of ECS entities carrying a `Piece` component
    (fields `piece_type`, `color`, `square`, declared in the repository's
    `pieces` module);
  * the selection resources `SelectedSquare` and `SelectedPiece`.

The embedding below keeps the source's names and the exact branch structure
of the loop body of `move_piece`.  ECS entities are modelled as natural
numbers; the registry is the list of live `(entity, Piece)` rows that a
`Query<(Entity, &Piece)>` yields.  Marker-component insertions
(`Taken`, `Promoted`) are modelled as the lists of entities they are
inserted on.  The `chess` crate is external to the repository, so the
engine is modelled abstractly: a `legal` oracle decides `make_move`, and
the geometric helpers `Square.up/down/left/right/forward/backward` follow
the crate's documented semantics (rank 0 = rank 1, file 0 = file A;
`backward` for White goes down one rank, for Black up one rank).
-/

namespace BevyChess

inductive PieceColor where
  | White
  | Black
deriving DecidableEq, Repr, Fintype

/-- Winner announcement in `despawn_taken_pieces` prints the color opposite
to the captured king's color. -/
def PieceColor.opposite : PieceColor → PieceColor
  | .White => .Black
  | .Black => .White

inductive PieceType where
  | Pawn
  | Knight
  | Bishop
  | Rook
  | Queen
  | King
deriving DecidableEq, Repr, Fintype

/-- A board square, as in the `chess` crate: rank index 0..7 (rank 1..8),
file index 0..7 (file A..H). -/
structure Square where
  rank : Fin 8
  file : Fin 8
deriving DecidableEq, Repr, Fintype

/-- `File::A` of the `chess` crate. -/
def fileA : Fin 8 := 0

/-- `File::H` of the `chess` crate. -/
def fileH : Fin 8 := 7

/-- `Rank::First` of the `chess` crate (rank 1). -/
def rankFirst : Fin 8 := 0

/-- `Rank::Eighth` of the `chess` crate (rank 8). -/
def rankEighth : Fin 8 := 7

/-- `Square::up` of the `chess` crate: one rank up, `None` at rank 8. -/
def Square.up (s : Square) : Option Square :=
  if h : s.rank.val + 1 < 8 then some ⟨⟨s.rank.val + 1, h⟩, s.file⟩ else none

/-- `Square::down` of the `chess` crate: one rank down, `None` at rank 1. -/
def Square.down (s : Square) : Option Square :=
  if h : 0 < s.rank.val then
    some ⟨⟨s.rank.val - 1, by omega⟩, s.file⟩
  else none

/-- `Square::left` of the `chess` crate: one file toward A, `None` at file A. -/
def Square.left (s : Square) : Option Square :=
  if h : 0 < s.file.val then
    some ⟨s.rank, ⟨s.file.val - 1, by omega⟩⟩
  else none

/-- `Square::right` of the `chess` crate: one file toward H, `None` at file H. -/
def Square.right (s : Square) : Option Square :=
  if h : s.file.val + 1 < 8 then some ⟨s.rank, ⟨s.file.val + 1, h⟩⟩ else none

/-- `Square::backward(color)` of the `chess` crate: down for White, up for
Black. -/
def Square.backward (s : Square) : PieceColor → Option Square
  | .White => s.down
  | .Black => s.up

/-- `Square::forward(color)` of the `chess` crate: up for White, down for
Black. -/
def Square.forward (s : Square) : PieceColor → Option Square
  | .White => s.up
  | .Black => s.down

/-- Modelled from the spec: the `Piece` component of the repository's
`pieces` module (not present under `src/`), with exactly the fields the
spec's data model lists and `board.rs` reads and writes:
piece type, color and current square.  The `alive` flag of the spec is
represented by registry membership together with the `Taken` marker list,
mirroring the ECS encoding. -/
structure Piece where
  piece_type : PieceType
  color : PieceColor
  square : Square
deriving DecidableEq, Repr

/-- A board snapshot of the external rules engine, exposing exactly the
queries `board.rs` performs: `piece_on`, `en_passant` (the square of the
pawn that can be captured en passant, per the `chess` crate) and
`side_to_move`. -/
structure Board where
  piece_on : Square → Option (PieceType × PieceColor)
  en_passant : Option Square
  side_to_move : PieceColor

/-- `ChessMove::new(source, dest, promotion)` of the `chess` crate. -/
structure ChessMove where
  source : Square
  dest : Square
  promotion : Option PieceType
deriving DecidableEq, Repr

/-- The `Game` resource: the external rules engine, modelled abstractly by
its current position, a legality oracle deciding `make_move`, and the
successor position returned after an accepted move. -/
structure Game where
  position : Board
  legal : ChessMove → Bool
  next : ChessMove → Board

/-- `Game::make_move` of the `chess` crate: on a legal move it mutates the
game to the successor position and returns `true`; on an illegal move it
returns `false` and leaves the game untouched. -/
def Game.make_move (g : Game) (m : ChessMove) : Bool × Game :=
  if g.legal m then (true, { g with position := g.next m }) else (false, g)

/-- The live piece registry: the rows yielded by `Query<(Entity, &Piece)>`,
an entity id paired with its `Piece` component. -/
abbrev Registry := List (Nat × Piece)

/-- The selection resources `SelectedSquare` and `SelectedPiece`
(square entities are identified with their `Square` component). -/
structure SelState where
  selected_square : Option Square
  selected_piece : Option Nat
deriving DecidableEq, Repr

/-- A resolved click event: either a square of the board was under the
cursor, or the player clicked outside the board. -/
inductive ClickEvent where
  | onSquare (s : Square)
  | offBoard
deriving DecidableEq, Repr

/-- The promotion inference of `move_piece` (board.rs lines 224-242):
`Queen` exactly for a pawn whose destination rank is `Rank::First` for
Black or `Rank::Eighth` for White. -/
def inferPromotion (piece_type : PieceType) (piece_color : PieceColor)
    (new_square : Square) : Option PieceType :=
  match piece_type with
  | .Pawn =>
    match piece_color with
    | .Black => if new_square.rank = rankFirst then some .Queen else none
    | .White => if new_square.rank = rankEighth then some .Queen else none
  | _ => none

/-- The first branch chain of the update loop of `move_piece` (board.rs
lines 248-263): the relocation / promotion branch
(`square == old_square`), else the displacement-capture branch
(`square == new_square`).  Returns the updated piece and the `Taken` and
`Promoted` flags this chain produces. -/
def moveOrCaptureStep (old_square new_square : Square)
    (promotion : Option PieceType) (old_board : Board) (p : Piece) :
    Piece × Bool × Bool :=
  if p.square = old_square then
    match promotion with
    | some promotion_piece =>
      ({ p with square := new_square, piece_type := promotion_piece },
        false, true)
    | none => ({ p with square := new_square }, false, false)
  else if p.square = new_square then
    (p, (old_board.piece_on new_square).isSome, false)
  else
    (p, false, false)

/-- The castle branch of the update loop of `move_piece` (board.rs lines
265-290), applied to the piece as the first branch chain left it:
for a rook of the mover's color, when the mover is a King displaced by
more than one file, a rook whose file is the corner file on the side the
king moved toward is relocated next to the king's destination via the
Option-returning `right()` / `left()`; a `None` result leaves the rook in
place. -/
def castleStep (old_square new_square : Square) (piece_color : PieceColor)
    (piece_type : PieceType) (p1 : Piece) : Piece :=
  if p1.piece_type = PieceType.Rook ∧ p1.color = piece_color then
    let horizontal_movement : Int :=
      (old_square.file.val : Int) - (new_square.file.val : Int)
    let castles :=
      piece_type = PieceType.King ∧ 1 < horizontal_movement.natAbs
    if castles then
      if 0 < horizontal_movement then
        if p1.square.file = fileA then
          match new_square.right with
          | some rook_square => { p1 with square := rook_square }
          | none => p1
        else p1
      else
        if p1.square.file = fileH then
          match new_square.left with
          | some rook_square => { p1 with square := rook_square }
          | none => p1
        else p1
    else p1
  else p1

/-- The en-passant branch of the update loop of `move_piece` (board.rs
lines 292-299), testing the piece as the castle branch left it: the moved
piece is a pawn, the old board's `en_passant` square equals the square
behind the destination from the mover's perspective, and this piece
stands on that `en_passant` square. -/
def enPassantFlag (new_square : Square) (piece_color : PieceColor)
    (piece_type : PieceType) (old_board : Board) (p2 : Piece) : Bool :=
  decide (piece_type = PieceType.Pawn ∧
    old_board.en_passant = new_square.backward piece_color ∧
    some p2.square = old_board.en_passant)

/-- One iteration of the update loop of `move_piece` (board.rs lines
246-300), applied to a single registry row after the move was accepted.
Returns the updated piece together with the flags recording whether a
`Taken` and a `Promoted` marker were inserted on its entity.  The three
sections run in source order on the successively updated piece. -/
def updatePiece (old_square new_square : Square) (piece_color : PieceColor)
    (piece_type : PieceType) (promotion : Option PieceType)
    (old_board : Board) (p : Piece) : Piece × Bool × Bool :=
  let step1 := moveOrCaptureStep old_square new_square promotion old_board p
  let p2 := castleStep old_square new_square piece_color piece_type step1.1
  (p2,
    step1.2.1 || enPassantFlag new_square piece_color piece_type old_board p2,
    step1.2.2)

/-- The outcome of one run of the `move_piece` system: whether `make_move`
accepted the candidate move, the registry after the update loop, the
entities that received a `Taken` marker, the entities that received a
`Promoted` marker, and whether a `ResetSelectedEvent` was sent. -/
structure MoveResult where
  accepted : Bool
  pieces : Registry
  taken : List Nat
  promoted : List Nat
  reset_sent : Bool
deriving DecidableEq, Repr

/-- The whole update loop of `move_piece` on an accepted move (board.rs
lines 246-301): every registry row passes through `updatePiece`; the
resulting registry, the entities marked `Taken`, and the entities marked
`Promoted`. -/
def applyMove (old_square new_square : Square) (piece_color : PieceColor)
    (piece_type : PieceType) (promotion : Option PieceType)
    (old_board : Board) (pieces : Registry) :
    Registry × List Nat × List Nat :=
  let updated := pieces.map (fun ep =>
    (ep.1, updatePiece old_square new_square piece_color piece_type
      promotion old_board ep.2))
  (updated.map (fun ep => (ep.1, ep.2.1)),
    (updated.filter (fun ep => ep.2.2.1)).map (fun ep => ep.1),
    (updated.filter (fun ep => ep.2.2.2)).map (fun ep => ep.1))

/-- The `move_piece` system (board.rs lines 175-305).  Early returns — no
selected piece found in the registry, the selected square unchanged, or no
selected square — send no reset event and change nothing.  Otherwise the
candidate move is built from the selected piece's current square, the
selected square, and the inferred promotion; it is submitted via
`make_move`; on acceptance every registry row passes through
`updatePiece`; a `ResetSelectedEvent` is sent in either case. -/
def move_piece (game : Game) (pieces : Registry)
    (selected_square : Option Square) (square_changed : Bool)
    (selected_piece : Option Nat) : MoveResult × Game :=
  match selected_piece.bind
      (fun e => pieces.find? (fun ep => ep.1 == e)) with
  | none => (⟨false, pieces, [], [], false⟩, game)
  | some sel =>
    if ¬ square_changed then (⟨false, pieces, [], [], false⟩, game)
    else
      match selected_square with
      | none => (⟨false, pieces, [], [], false⟩, game)
      | some square =>
        let old_square := sel.2.square
        let new_square := square
        let piece_color := sel.2.color
        let piece_type := sel.2.piece_type
        let promotion := inferPromotion piece_type piece_color new_square
        let m : ChessMove := ⟨old_square, new_square, promotion⟩
        let old_board := game.position
        let res := game.make_move m
        if res.1 then
          let applied := applyMove old_square new_square piece_color
            piece_type promotion old_board pieces
          (⟨true, applied.1, applied.2.1, applied.2.2, true⟩, res.2)
        else
          (⟨false, pieces, [], [], true⟩, res.2)

/-- The `select_square` system (board.rs lines 111-136), for a frame in
which the left button was pressed: a square under the cursor becomes the
selected square; a click outside the board clears both selections. -/
def select_square (sel : SelState) (click : ClickEvent) : SelState :=
  match click with
  | .onSquare s => { sel with selected_square := some s }
  | .offBoard => ⟨none, none⟩

/-- The `select_piece` system (board.rs lines 138-173): when the selected
square changed, a square is selected, and no piece is selected yet, the
first registry row whose piece stands on the selected square and has the
engine's side-to-move color becomes the selected piece. -/
def select_piece (game : Game) (pieces : Registry) (sel : SelState)
    (square_changed : Bool) : SelState :=
  if ¬ square_changed then sel
  else
    match sel.selected_square with
    | none => sel
    | some square =>
      match sel.selected_piece with
      | some _ => sel
      | none =>
        match pieces.find? (fun ep =>
            decide (ep.2.square = square ∧
              ep.2.color = game.position.side_to_move)) with
        | some ep => { sel with selected_piece := some ep.1 }
        | none => sel

/-- The `reset_selected` system (board.rs lines 309-318): on a
`ResetSelectedEvent`, both selections are cleared. -/
def reset_selected (sel : SelState) (event_sent : Bool) : SelState :=
  if event_sent then ⟨none, none⟩ else sel

/-- One frame of click processing, in the schedule order the plugin
declares (board.rs lines 344-371): `select_square` first, `move_piece`
before `select_piece`, `reset_selected` consuming the event `move_piece`
sent.  Returns the updated game, registry, selection, and the move
outcome. -/
def process_click (game : Game) (pieces : Registry) (sel : SelState)
    (click : ClickEvent) : Game × Registry × SelState × MoveResult :=
  let sel1 := select_square sel click
  let mr := move_piece game pieces sel1.selected_square true
    sel1.selected_piece
  let sel2 := select_piece mr.2 mr.1.pieces sel1 true
  let sel3 := reset_selected sel2 mr.1.reset_sent
  (mr.2, mr.1.pieces, sel3, mr.1)

/-- The `despawn_taken_pieces` system (board.rs lines 321-342): every
registry row whose entity carries a `Taken` marker is despawned; for each
such row holding a King, the winner (the color opposite the king's) is
announced and an `AppExit` event is sent.  Returns the list of announced
winners (one per exit event) and the surviving registry. -/
def despawn_taken_pieces (pieces : Registry) (taken : List Nat) :
    List PieceColor × Registry :=
  let takenRows := pieces.filter (fun ep => taken.contains ep.1)
  let winners :=
    (takenRows.filter (fun ep =>
      ep.2.piece_type == PieceType.King)).map (fun ep => ep.2.color.opposite)
  (winners, pieces.filter (fun ep => ! taken.contains ep.1))

/-- The guarantee the `chess` crate provides about its en-passant field:
when `en_passant` is set, it holds the square of the pawn that just made a
double step, and the skipped square — one step forward of it from the
side-to-move's perspective, the only square an en-passant capture can land
on — is empty. -/
def Board.WellFormed (b : Board) : Prop :=
  ∀ s t, b.en_passant = some s → s.forward b.side_to_move = some t →
    b.piece_on t = none

/-! ### Geometry lemmas about the `chess` crate square helpers -/

set_option maxRecDepth 4096

/-- Stepping forward and then backward for the same color returns to the
starting square. -/
theorem Square.forward_backward : ∀ (s t : Square) (c : PieceColor),
    s.forward c = some t → t.backward c = some s := by decide

/-- Stepping backward and then forward for the same color returns to the
starting square. -/
theorem Square.backward_forward : ∀ (s t : Square) (c : PieceColor),
    s.backward c = some t → t.forward c = some s := by decide

/-- A backward step never yields the square itself. -/
theorem Square.backward_ne : ∀ (s t : Square) (c : PieceColor),
    s.backward c = some t → t ≠ s := by decide

/-- A forward step never yields the square itself. -/
theorem Square.forward_ne : ∀ (s t : Square) (c : PieceColor),
    s.forward c = some t → t ≠ s := by decide

/-! ### List helpers -/

/-- A filter whose satisfying elements all share one key value keeps at
most one element of a list whose keys are pairwise distinct. -/
theorem length_filter_le_one_of_key {α β : Type} [DecidableEq β]
    (l : List α) (f : α → Bool) (key : α → β) (σ : β)
    (hnd : (l.map key).Nodup)
    (h : ∀ a ∈ l, f a = true → key a = σ) : (l.filter f).length ≤ 1 := by
  induction l with
  | nil => simp
  | cons a l ih =>
    rw [List.map_cons, List.nodup_cons] at hnd
    by_cases hfa : f a = true
    · rw [List.filter_cons_of_pos hfa]
      have hnil : l.filter f = [] := by
        rw [List.filter_eq_nil_iff]
        intro b hb hfb
        have hkb : key b = σ := h b (List.mem_cons_of_mem _ hb) hfb
        have hka : key a = σ := h a (List.mem_cons_self a l) hfa
        exact hnd.1 (hka ▸ hkb ▸ List.mem_map_of_mem key hb)
      simp [hnil]
    · rw [List.filter_cons_of_neg (by simpa using hfa)]
      exact ih hnd.2 (fun b hb hfb => h b (List.mem_cons_of_mem _ hb) hfb)

/-! ### Promotion inference lemmas -/

/-- The back rank the promotion branch of `move_piece` tests:
`Rank::Eighth` for White, `Rank::First` for Black (board.rs lines
224-242). -/
def lastRank : PieceColor → Fin 8
  | .White => rankEighth
  | .Black => rankFirst

/-- Closed form of the promotion inference: `Queen` exactly for a pawn
headed to the back rank of its color. -/
theorem inferPromotion_eq (t : PieceType) (c : PieceColor) (s : Square) :
    inferPromotion t c s =
      if t = PieceType.Pawn ∧ s.rank = lastRank c then
        some PieceType.Queen
      else none := by
  cases t <;> cases c <;> simp [inferPromotion, lastRank]

/-- The promotion inference only ever produces a Queen, and only for a
pawn. -/
theorem inferPromotion_some {t : PieceType} {c : PieceColor} {s : Square}
    {q : PieceType} (h : inferPromotion t c s = some q) :
    q = PieceType.Queen ∧ t = PieceType.Pawn := by
  rw [inferPromotion_eq] at h
  split at h
  · cases h
    simp_all
  · cases h

/-! ### Branch lemmas for the update loop of move_piece -/

/-- The first branch chain on the moved piece: relocation, plus promotion
when inferred. -/
theorem moveOrCaptureStep_mover (old new : Square)
    (promo : Option PieceType) (b : Board) (p : Piece)
    (h : p.square = old) :
    moveOrCaptureStep old new promo b p =
      ({ p with square := new, piece_type := promo.getD p.piece_type },
        false, promo.isSome) := by
  unfold moveOrCaptureStep
  rw [if_pos h]
  cases promo <;> rfl

/-- The first branch chain on a piece standing on the destination square:
a `Taken` flag when the old board held a piece there. -/
theorem moveOrCaptureStep_target (old new : Square)
    (promo : Option PieceType) (b : Board) (p : Piece)
    (h1 : p.square ≠ old) (h2 : p.square = new) :
    moveOrCaptureStep old new promo b p =
      (p, (b.piece_on new).isSome, false) := by
  unfold moveOrCaptureStep
  rw [if_neg h1, if_pos h2]

/-- The first branch chain on an uninvolved piece: no change. -/
theorem moveOrCaptureStep_other (old new : Square)
    (promo : Option PieceType) (b : Board) (p : Piece)
    (h1 : p.square ≠ old) (h2 : p.square ≠ new) :
    moveOrCaptureStep old new promo b p = (p, false, false) := by
  unfold moveOrCaptureStep
  rw [if_neg h1, if_neg h2]

/-- The castle branch does nothing when the moved piece is not a King. -/
theorem castleStep_not_king (old new : Square) (col : PieceColor)
    (ty : PieceType) (p1 : Piece) (h : ty ≠ PieceType.King) :
    castleStep old new col ty p1 = p1 := by
  unfold castleStep
  split
  · have hc : ¬ (ty = PieceType.King ∧
        1 < ((old.file.val : Int) - (new.file.val : Int)).natAbs) :=
      fun hc => h hc.1
    simp [hc]
  · rfl

/-- The castle branch does nothing to a piece that is not a Rook. -/
theorem castleStep_not_rook (old new : Square) (col : PieceColor)
    (ty : PieceType) (p1 : Piece) (h : p1.piece_type ≠ PieceType.Rook) :
    castleStep old new col ty p1 = p1 := by
  unfold castleStep
  rw [if_neg (fun hc => h hc.1)]

/-- The en-passant branch never triggers when the moved piece is not a
pawn. -/
theorem enPassantFlag_not_pawn (new : Square) (col : PieceColor)
    (ty : PieceType) (b : Board) (p2 : Piece)
    (h : ty ≠ PieceType.Pawn) :
    enPassantFlag new col ty b p2 = false := by
  simp [enPassantFlag, h]

/-- The en-passant branch never triggers on a piece standing on the
destination square itself: the `en_passant` square lies one rank behind
the destination. -/
theorem enPassantFlag_dest (new : Square) (col : PieceColor)
    (ty : PieceType) (b : Board) (p2 : Piece) (h : p2.square = new) :
    enPassantFlag new col ty b p2 = false := by
  simp only [enPassantFlag, decide_eq_false_iff_not]
  rintro ⟨-, h1, h2⟩
  rw [h, h1] at h2
  exact Square.backward_ne new new col h2.symm rfl

/-- The update loop as the composition of its three sections. -/
theorem updatePiece_eq (old new : Square) (col : PieceColor)
    (ty : PieceType) (promo : Option PieceType) (b : Board) (p : Piece) :
    updatePiece old new col ty promo b p =
      (castleStep old new col ty (moveOrCaptureStep old new promo b p).1,
        (moveOrCaptureStep old new promo b p).2.1 ||
          enPassantFlag new col ty b
            (castleStep old new col ty (moveOrCaptureStep old new promo b p).1),
        (moveOrCaptureStep old new promo b p).2.2) := rfl

/-- The update loop on the moved piece itself, when the loop parameters
come from that piece's own record (as `move_piece` reads them from the
selected row): it is relocated to the destination, promoted exactly when
the promotion was inferred, and never marked `Taken`. -/
theorem updatePiece_mover (old new : Square) (b : Board) (p : Piece)
    (h : p.square = old) :
    updatePiece old new p.color p.piece_type
        (inferPromotion p.piece_type p.color new) b p =
      ({ p with square := new, piece_type := (inferPromotion p.piece_type p.color new).getD p.piece_type },
        false,
        (inferPromotion p.piece_type p.color new).isSome) := by
  simp only [updatePiece_eq, moveOrCaptureStep_mover old new _ b p h]
  have hcastle :
      castleStep old new p.color p.piece_type
        { p with square := new, piece_type := (inferPromotion p.piece_type p.color new).getD p.piece_type } =
      { p with square := new, piece_type := (inferPromotion p.piece_type p.color new).getD p.piece_type } := by
    cases hpr : inferPromotion p.piece_type p.color new with
    | some q =>
      obtain ⟨hq, -⟩ := inferPromotion_some hpr
      apply castleStep_not_rook
      simp [hpr, hq]
    | none =>
      by_cases hr : p.piece_type = PieceType.Rook
      · exact castleStep_not_king _ _ _ _ _ (by simp [hr])
      · apply castleStep_not_rook
        simp [hpr, hr]
  rw [hcastle, enPassantFlag_dest new p.color p.piece_type b _ rfl]
  simp

/-- Case analysis for a `Taken` flag produced by the update loop: it is
the displacement capture of the piece on the destination square, or — for
a pawn move whose destination sits directly in front of the old board's
`en_passant` square — the en-passant capture of the piece standing on the
`en_passant` square. -/
theorem updatePiece_taken_cases (old new : Square) (col : PieceColor)
    (ty : PieceType) (promo : Option PieceType) (b : Board) (p : Piece)
    (h : (updatePiece old new col ty promo b p).2.1 = true) :
    (p.square = new ∧ (b.piece_on new).isSome = true) ∨
      (ty = PieceType.Pawn ∧ ∃ eps, b.en_passant = some eps ∧
        new.backward col = some eps ∧ p.square = eps) := by
  by_cases hty : ty = PieceType.Pawn
  · subst hty
    by_cases hold : p.square = old
    · exfalso
      simp only [updatePiece_eq,
        moveOrCaptureStep_mover old new promo b p hold,
        castleStep_not_king old new col PieceType.Pawn _ (by simp),
        enPassantFlag_dest new col PieceType.Pawn b { piece_type := promo.getD p.piece_type, color := p.color, square := new } rfl] at h
      simp at h
    · by_cases hnew : p.square = new
      · left
        simp only [updatePiece_eq,
          moveOrCaptureStep_target old new promo b p hold hnew,
          castleStep_not_king old new col PieceType.Pawn p (by simp),
          enPassantFlag_dest new col PieceType.Pawn b p hnew] at h
        simpa [hnew] using h
      · right
        simp only [updatePiece_eq,
          moveOrCaptureStep_other old new promo b p hold hnew,
          castleStep_not_king old new col PieceType.Pawn p (by simp),
          Bool.false_or] at h
        simp only [enPassantFlag, decide_eq_true_eq] at h
        obtain ⟨-, h1, h2⟩ := h
        exact ⟨rfl, p.square, h2.symm, h1 ▸ h2.symm, rfl⟩
  · simp only [updatePiece_eq,
      enPassantFlag_not_pawn new col ty b _ hty, Bool.or_false] at h
    by_cases hold : p.square = old
    · rw [moveOrCaptureStep_mover old new promo b p hold] at h
      simp at h
    · by_cases hnew : p.square = new
      · rw [moveOrCaptureStep_target old new promo b p hold hnew] at h
        left
        exact ⟨hnew, h⟩
      · rw [moveOrCaptureStep_other old new promo b p hold hnew] at h
        simp at h

/-- On a well-formed board, all `Taken` flags of one accepted move fall on
a single square: the destination for a displacement capture, or the old
board's `en_passant` square for an en-passant capture — never both, since
the en-passant destination is empty on a well-formed board. -/
theorem updatePiece_taken_key (old new : Square) (col : PieceColor)
    (ty : PieceType) (promo : Option PieceType) (b : Board)
    (hWF : b.WellFormed) (hcol : col = b.side_to_move) :
    ∃ σ : Square, ∀ p : Piece,
      (updatePiece old new col ty promo b p).2.1 = true → p.square = σ := by
  cases hbw : new.backward col with
  | none =>
    refine ⟨new, fun p hp => ?_⟩
    rcases updatePiece_taken_cases old new col ty promo b p hp with
      ⟨h1, -⟩ | ⟨-, eps, -, hbw2, -⟩
    · exact h1
    · rw [hbw] at hbw2
      cases hbw2
  | some eps =>
    by_cases hep : b.en_passant = some eps
    · refine ⟨eps, fun p hp => ?_⟩
      have hempty : b.piece_on new = none := by
        have hfwd : eps.forward b.side_to_move = some new := by
          rw [← hcol]
          exact Square.backward_forward new eps col hbw
        exact hWF eps new hep hfwd
      rcases updatePiece_taken_cases old new col ty promo b p hp with
        ⟨-, h2⟩ | ⟨-, eps2, -, hbw2, hsq⟩
      · rw [hempty] at h2
        simp at h2
      · rw [hbw] at hbw2
        cases hbw2
        exact hsq
    · refine ⟨new, fun p hp => ?_⟩
      rcases updatePiece_taken_cases old new col ty promo b p hp with
        ⟨h1, -⟩ | ⟨-, eps2, hep2, hbw2, -⟩
      · exact h1
      · rw [hbw] at hbw2
        cases hbw2
        exact absurd hep2 hep

/-! ### Run lemmas for move_piece and the frame pipeline -/

/-- With no piece selected, `move_piece` returns before building a move:
nothing changes and no reset event is sent. -/
theorem move_piece_no_piece (game : Game) (pieces : Registry)
    (ss : Option Square) (sc : Bool) :
    move_piece game pieces ss sc none =
      (⟨false, pieces, [], [], false⟩, game) := rfl

/-- A rejected move attempt: `make_move` returns `false`, nothing is
mutated, and the reset event is still sent. -/
theorem move_piece_rejected (game : Game) (pieces : Registry) (sq : Square)
    (e : Nat) (sel : Nat × Piece)
    (hfind : pieces.find? (fun ep => ep.1 == e) = some sel)
    (hlegal : game.legal ⟨sel.2.square, sq,
      inferPromotion sel.2.piece_type sel.2.color sq⟩ = false) :
    move_piece game pieces (some sq) true (some e) =
      (⟨false, pieces, [], [], true⟩, game) := by
  simp [move_piece, hfind, Game.make_move, hlegal]

/-- An accepted move attempt: the registry passes through `applyMove`, the
game advances, and the reset event is sent. -/
theorem move_piece_accepted (game : Game) (pieces : Registry) (sq : Square)
    (e : Nat) (sel : Nat × Piece)
    (hfind : pieces.find? (fun ep => ep.1 == e) = some sel)
    (hlegal : game.legal ⟨sel.2.square, sq,
      inferPromotion sel.2.piece_type sel.2.color sq⟩ = true) :
    move_piece game pieces (some sq) true (some e) =
      (⟨true,
        (applyMove sel.2.square sq sel.2.color sel.2.piece_type
          (inferPromotion sel.2.piece_type sel.2.color sq)
          game.position pieces).1,
        (applyMove sel.2.square sq sel.2.color sel.2.piece_type
          (inferPromotion sel.2.piece_type sel.2.color sq)
          game.position pieces).2.1,
        (applyMove sel.2.square sq sel.2.color sel.2.piece_type
          (inferPromotion sel.2.piece_type sel.2.color sq)
          game.position pieces).2.2,
        true⟩,
        { game with position := game.next ⟨sel.2.square, sq,
            inferPromotion sel.2.piece_type sel.2.color sq⟩ }) := by
  simp [move_piece, hfind, Game.make_move, hlegal]

/-- The registry component of an accepted `move_piece` run. -/
theorem move_piece_accepted_pieces (game : Game) (pieces : Registry)
    (sq : Square) (e : Nat) (sel : Nat × Piece)
    (hfind : pieces.find? (fun ep => ep.1 == e) = some sel)
    (hlegal : game.legal ⟨sel.2.square, sq,
      inferPromotion sel.2.piece_type sel.2.color sq⟩ = true) :
    (move_piece game pieces (some sq) true (some e)).1.pieces =
      (applyMove sel.2.square sq sel.2.color sel.2.piece_type
        (inferPromotion sel.2.piece_type sel.2.color sq)
        game.position pieces).1 := by
  rw [move_piece_accepted game pieces sq e sel hfind hlegal]

/-- The taken list of an accepted `move_piece` run. -/
theorem move_piece_accepted_taken (game : Game) (pieces : Registry)
    (sq : Square) (e : Nat) (sel : Nat × Piece)
    (hfind : pieces.find? (fun ep => ep.1 == e) = some sel)
    (hlegal : game.legal ⟨sel.2.square, sq,
      inferPromotion sel.2.piece_type sel.2.color sq⟩ = true) :
    (move_piece game pieces (some sq) true (some e)).1.taken =
      (applyMove sel.2.square sq sel.2.color sel.2.piece_type
        (inferPromotion sel.2.piece_type sel.2.color sq)
        game.position pieces).2.1 := by
  rw [move_piece_accepted game pieces sq e sel hfind hlegal]

/-- The registry an accepted move produces is the pointwise image of the
update loop. -/
theorem applyMove_pieces (old new : Square) (col : PieceColor)
    (ty : PieceType) (promo : Option PieceType) (b : Board)
    (pieces : Registry) :
    (applyMove old new col ty promo b pieces).1 =
      pieces.map (fun ep =>
        (ep.1, (updatePiece old new col ty promo b ep.2).1)) := by
  simp [applyMove, List.map_map]

/-- An accepted move preserves the number of registry rows. -/
theorem applyMove_pieces_length (old new : Square) (col : PieceColor)
    (ty : PieceType) (promo : Option PieceType) (b : Board)
    (pieces : Registry) :
    (applyMove old new col ty promo b pieces).1.length = pieces.length := by
  simp [applyMove]

/-- A registry row whose update carries the `Taken` flag contributes its
entity to the taken list. -/
theorem mem_applyMove_taken (old new : Square) (col : PieceColor)
    (ty : PieceType) (promo : Option PieceType) (b : Board)
    (pieces : Registry) (ep : Nat × Piece) (hmem : ep ∈ pieces)
    (hflag : (updatePiece old new col ty promo b ep.2).2.1 = true) :
    ep.1 ∈ (applyMove old new col ty promo b pieces).2.1 := by
  simp only [applyMove]
  refine List.mem_map.mpr
    ⟨(ep.1, updatePiece old new col ty promo b ep.2), ?_, rfl⟩
  exact List.mem_filter.mpr ⟨List.mem_map_of_mem _ hmem, hflag⟩

/-- On a well-formed board, an accepted move marks at most one registry
row `Taken`, provided no two live rows share a square. -/
theorem applyMove_taken_length_le_one (old new : Square) (col : PieceColor)
    (ty : PieceType) (promo : Option PieceType) (b : Board)
    (pieces : Registry)
    (hnd : (pieces.map (fun ep => ep.2.square)).Nodup)
    (hWF : b.WellFormed) (hcol : col = b.side_to_move) :
    (applyMove old new col ty promo b pieces).2.1.length ≤ 1 := by
  obtain ⟨σ, hσ⟩ := updatePiece_taken_key old new col ty promo b hWF hcol
  simp only [applyMove, List.filter_map, List.length_map]
  exact length_filter_le_one_of_key pieces _ (fun ep => ep.2.square) σ hnd
    (fun ep hep hf => hσ ep.2 hf)

/-- With a piece already selected, `select_piece` changes nothing. -/
theorem select_piece_selected (game : Game) (pieces : Registry)
    (sel : SelState) (sc : Bool) (x : Nat)
    (hp : sel.selected_piece = some x) :
    select_piece game pieces sel sc = sel := by
  unfold select_piece
  split
  · rfl
  · split
    · rfl
    · simp [hp]

/-- With a square selected and no piece selected, `select_piece` selects
the first registry row standing on that square with the side-to-move
color, if any. -/
theorem select_piece_run (game : Game) (pieces : Registry) (sel : SelState)
    (sq : Square) (hsq : sel.selected_square = some sq)
    (hp : sel.selected_piece = none) :
    select_piece game pieces sel true =
      { sel with selected_piece := (pieces.find? (fun ep => decide (ep.2.square = sq ∧ ep.2.color = game.position.side_to_move))).map (fun ep => ep.1) } := by
  unfold select_piece
  rw [hsq]
  simp only [not_true, if_false]
  rw [hp]
  cases hf : pieces.find? (fun ep => decide (ep.2.square = sq ∧
      ep.2.color = game.position.side_to_move)) with
  | none =>
    cases sel with
    | mk a b => simp_all
  | some ep => simp

/-- A full click frame whose move attempt the engine rejects: board,
game and registry unchanged, empty effect lists, selection cleared. -/
theorem process_click_rejected (game : Game) (pieces : Registry)
    (sel : SelState) (sq : Square) (e : Nat) (row : Nat × Piece)
    (hp : sel.selected_piece = some e)
    (hfind : pieces.find? (fun ep => ep.1 == e) = some row)
    (hlegal : game.legal ⟨row.2.square, sq,
      inferPromotion row.2.piece_type row.2.color sq⟩ = false) :
    process_click game pieces sel (.onSquare sq) =
      (game, pieces, ⟨none, none⟩, ⟨false, pieces, [], [], true⟩) := by
  unfold process_click select_square
  simp only
  rw [hp, move_piece_rejected game pieces sq e row hfind hlegal]
  simp only
  rw [select_piece_selected game pieces ⟨some sq, some e⟩ true e rfl]
  rfl

/-! ### Claims -/

/-- Fixture for C1: a white king on e1 castling long to c1, with white
rooks on a1 (the corner) and on a5 (an off-corner square sharing the
a-file). -/
def c1Board : Board :=
  { piece_on := fun _ => none, en_passant := none, side_to_move := .White }

/-- Fixture for C1: an engine that accepts every submitted move. -/
def c1Game : Game :=
  { position := c1Board, legal := fun _ => true, next := fun _ => c1Board }

/-- Fixture for C1: king e1, rook a1, rook a5, all white. -/
def c1Pieces : Registry :=
  [(0, ⟨.King, .White, ⟨0, 4⟩⟩),
   (1, ⟨.Rook, .White, ⟨0, 0⟩⟩),
   (2, ⟨.Rook, .White, ⟨4, 0⟩⟩)]

/-- C1: the claim states that on an accepted castling king move exactly
the rook on the fixed corner square of the king's rank relocates and no
other rook's square changes.  The code only compares the rook's file
against the corner file, never its rank: on the accepted long castle
e1-c1, the white rook standing on a5 (entity 2) is relocated to d1 right
alongside the corner rook from a1 — its square changes even though it is
not the corner rook. -/
theorem c1_castle_moves_offcorner_rook :
    (2, (⟨.Rook, .White, ⟨4, 0⟩⟩ : Piece)) ∈ c1Pieces ∧
    (move_piece c1Game c1Pieces (some ⟨0, 2⟩) true (some 0)).1.pieces =
      [(0, ⟨.King, .White, ⟨0, 2⟩⟩),
       (1, ⟨.Rook, .White, ⟨0, 3⟩⟩),
       (2, ⟨.Rook, .White, ⟨0, 3⟩⟩)] := by decide

/-- C2: a move attempt the rules engine rejects leaves the game and every
registry row unchanged, produces no `Taken` or `Promoted` markers, and
the frame ends with the selection reset to `Idle`. -/
theorem c2_rejected_move_no_mutation (game : Game) (pieces : Registry)
    (sel : SelState) (sq : Square) (e : Nat) (row : Nat × Piece)
    (hp : sel.selected_piece = some e)
    (hfind : pieces.find? (fun ep => ep.1 == e) = some row)
    (hlegal : game.legal ⟨row.2.square, sq,
      inferPromotion row.2.piece_type row.2.color sq⟩ = false) :
    process_click game pieces sel (.onSquare sq) =
      (game, pieces, ⟨none, none⟩, ⟨false, pieces, [], [], true⟩) :=
  process_click_rejected game pieces sel sq e row hp hfind hlegal

/-- Fixture for the C2 witness: an engine that rejects every move. -/
def w2Board : Board :=
  { piece_on := fun _ => none, en_passant := none, side_to_move := .White }

/-- Fixture for the C2 witness. -/
def w2Game : Game :=
  { position := w2Board, legal := fun _ => false, next := fun _ => w2Board }

/-- Fixture for the C2 witness: a single white knight on b1. -/
def w2Pieces : Registry := [(5, ⟨.Knight, .White, ⟨0, 1⟩⟩)]

/-- Witness for C2 at a concrete rejected move attempt. -/
theorem c2_rejected_move_no_mutation_witness :
    process_click w2Game w2Pieces ⟨some ⟨0, 1⟩, some 5⟩ (.onSquare ⟨2, 2⟩) =
      (w2Game, w2Pieces, ⟨none, none⟩, ⟨false, w2Pieces, [], [], true⟩) :=
  c2_rejected_move_no_mutation w2Game w2Pieces ⟨some ⟨0, 1⟩, some 5⟩ ⟨2, 2⟩
    5 (5, ⟨.Knight, .White, ⟨0, 1⟩⟩) rfl rfl rfl

/-- Fixture for the C3 counterexample: an engine that rejects exactly the
moves whose source and destination coincide, as the chess rules make
every null move illegal. -/
def c3Board : Board :=
  { piece_on := fun _ => none, en_passant := none, side_to_move := .White }

/-- Fixture for the C3 counterexample. -/
def c3Game : Game :=
  { position := c3Board, legal := fun m => ! (m.source == m.dest),
    next := fun _ => c3Board }

/-- Fixture for the C3 counterexample: a single white pawn on e2,
currently selected. -/
def c3Pieces : Registry := [(7, ⟨.Pawn, .White, ⟨1, 4⟩⟩)]

/-- C3 counterexample: with the pawn on e2 selected, clicking e2 again is
not a no-op that keeps the selection.  A from==to move is submitted to
the engine (the reset event of the attempt is sent) and the frame ends
with the selection cleared to `Idle`, not still on the piece. -/
theorem c3_reselect_not_noop_counterexample :
    process_click c3Game c3Pieces ⟨some ⟨1, 4⟩, some 7⟩ (.onSquare ⟨1, 4⟩) =
      (c3Game, c3Pieces, ⟨none, none⟩, ⟨false, c3Pieces, [], [], true⟩) ∧
    ((⟨none, none⟩ : SelState) ≠ ⟨some ⟨1, 4⟩, some 7⟩) :=
  ⟨rfl, by decide⟩

/-- C3 amended: clicking the already-selected square submits a from==to
move, which the engine rejects as every null move is illegal; the board
and registry are unchanged, but the selection resets to `Idle` rather
than remaining on the piece. -/
theorem c3_reselect_resets_selection (game : Game) (pieces : Registry)
    (sel : SelState) (e : Nat) (row : Nat × Piece)
    (hp : sel.selected_piece = some e)
    (hfind : pieces.find? (fun ep => ep.1 == e) = some row)
    (hlegal : game.legal ⟨row.2.square, row.2.square,
      inferPromotion row.2.piece_type row.2.color row.2.square⟩ = false) :
    process_click game pieces sel (.onSquare row.2.square) =
      (game, pieces, ⟨none, none⟩, ⟨false, pieces, [], [], true⟩) :=
  process_click_rejected game pieces sel row.2.square e row hp hfind hlegal

/-- Witness for the amended C3 at the concrete re-click input. -/
theorem c3_reselect_resets_selection_witness :
    process_click c3Game c3Pieces ⟨some ⟨1, 4⟩, some 7⟩ (.onSquare ⟨1, 4⟩) =
      (c3Game, c3Pieces, ⟨none, none⟩, ⟨false, c3Pieces, [], [], true⟩) :=
  c3_reselect_resets_selection c3Game c3Pieces ⟨some ⟨1, 4⟩, some 7⟩ 7
    (7, ⟨.Pawn, .White, ⟨1, 4⟩⟩) rfl rfl rfl

/-- C4: on an accepted move the moved piece is relocated to the
destination, and its type becomes Queen exactly when it is a Pawn headed
to the back rank of its color (rank 8 for White, rank 1 for Black);
otherwise its type is unchanged — all in the same accepted transaction. -/
theorem c4_promotion_iff_pawn_back_rank (game : Game) (pieces : Registry)
    (sq : Square) (e : Nat) (row : Nat × Piece)
    (hfind : pieces.find? (fun ep => ep.1 == e) = some row)
    (hlegal : game.legal ⟨row.2.square, sq,
      inferPromotion row.2.piece_type row.2.color sq⟩ = true) :
    (move_piece game pieces (some sq) true (some e)).1.pieces.find?
        (fun ep => ep.1 == e) =
      some (row.1, { row.2 with square := sq, piece_type := if row.2.piece_type = PieceType.Pawn ∧ sq.rank = lastRank row.2.color then PieceType.Queen else row.2.piece_type }) := by
  rw [move_piece_accepted_pieces game pieces sq e row hfind hlegal]
  rw [applyMove_pieces, List.find?_map]
  have hpred : ((fun ep : Nat × Piece => ep.1 == e) ∘
      (fun ep : Nat × Piece => (ep.1,
        (updatePiece row.2.square sq row.2.color row.2.piece_type
          (inferPromotion row.2.piece_type row.2.color sq)
          game.position ep.2).1))) = (fun ep : Nat × Piece => ep.1 == e) :=
    rfl
  rw [hpred, hfind]
  simp only [Option.map_some']
  rw [updatePiece_mover row.2.square sq game.position row.2 rfl]
  rw [inferPromotion_eq]
  by_cases hc : row.2.piece_type = PieceType.Pawn ∧
      sq.rank = lastRank row.2.color <;> simp [hc]

/-- Fixture for the C4 witness: an all-accepting engine. -/
def w4Board : Board :=
  { piece_on := fun _ => none, en_passant := none, side_to_move := .White }

/-- Fixture for the C4 witness. -/
def w4Game : Game :=
  { position := w4Board, legal := fun _ => true, next := fun _ => w4Board }

/-- Fixture for the C4 witness: a single white pawn on e7. -/
def w4Pieces : Registry := [(3, ⟨.Pawn, .White, ⟨6, 4⟩⟩)]

/-- Witness for C4: the white pawn accepted onto e8 comes out as a Queen
on e8. -/
theorem c4_promotion_iff_pawn_back_rank_witness :
    (move_piece w4Game w4Pieces (some ⟨7, 4⟩) true (some 3)).1.pieces.find?
        (fun ep => ep.1 == 3) =
      some (3, { piece_type := if (PieceType.Pawn = PieceType.Pawn ∧ (⟨7, 4⟩ : Square).rank = lastRank PieceColor.White) then PieceType.Queen else PieceType.Pawn, color := PieceColor.White, square := ⟨7, 4⟩ }) :=
  c4_promotion_iff_pawn_back_rank w4Game w4Pieces ⟨7, 4⟩ 3
    (3, ⟨.Pawn, .White, ⟨6, 4⟩⟩) rfl rfl

/-- C5: an accepted pawn move onto the en-passant capture destination of
the old board (the square one step forward of the old board's
`en_passant` square for the side to move): that destination held no piece
on the old board, and every registry row standing on the `en_passant`
square — the pawn directly behind the destination — is marked `Taken`. -/
theorem c5_en_passant_capture (game : Game) (pieces : Registry)
    (sq eps : Square) (e : Nat) (row : Nat × Piece)
    (hfind : pieces.find? (fun ep => ep.1 == e) = some row)
    (hpawn : row.2.piece_type = PieceType.Pawn)
    (hcol : row.2.color = game.position.side_to_move)
    (heps : game.position.en_passant = some eps)
    (hfwd : eps.forward game.position.side_to_move = some sq)
    (hWF : game.position.WellFormed)
    (hmover : row.2.square ≠ eps)
    (hlegal : game.legal ⟨row.2.square, sq,
      inferPromotion row.2.piece_type row.2.color sq⟩ = true) :
    game.position.piece_on sq = none ∧
    ∀ ep ∈ pieces, ep.2.square = eps →
      ep.1 ∈ (move_piece game pieces (some sq) true (some e)).1.taken := by
  have hbw : sq.backward row.2.color = some eps := by
    rw [hcol]
    exact Square.forward_backward eps sq game.position.side_to_move hfwd
  refine ⟨hWF eps sq heps hfwd, fun ep hmem hsq => ?_⟩
  rw [move_piece_accepted_taken game pieces sq e row hfind hlegal]
  apply mem_applyMove_taken _ _ _ _ _ _ _ ep hmem
  have hne_old : ep.2.square ≠ row.2.square := by
    rw [hsq]
    exact fun hh => hmover hh.symm
  have hne_new : ep.2.square ≠ sq := by
    rw [hsq]
    exact Square.backward_ne sq eps row.2.color hbw
  rw [hpawn]
  simp only [updatePiece_eq,
    moveOrCaptureStep_other row.2.square sq _ game.position ep.2 hne_old
      hne_new,
    castleStep_not_king row.2.square sq row.2.color PieceType.Pawn ep.2
      (by simp),
    Bool.false_or]
  simp [enPassantFlag, heps, hbw, hsq]

/-- Fixture for the C5 witness: black just played d7-d5, so the old
board's `en_passant` square is d5 and White is to move; a white pawn
stands on e5, the black pawn on d5. -/
def w5Board : Board :=
  { piece_on := fun s => if s = ⟨4, 3⟩ then some (.Pawn, .Black) else if s = ⟨4, 4⟩ then some (.Pawn, .White) else none,
    en_passant := some ⟨4, 3⟩, side_to_move := .White }

/-- Fixture for the C5 witness. -/
def w5Game : Game :=
  { position := w5Board, legal := fun _ => true, next := fun _ => w5Board }

/-- Fixture for the C5 witness: the capturing white pawn (entity 11) and
the black double-stepped pawn (entity 12). -/
def w5Pieces : Registry :=
  [(11, ⟨.Pawn, .White, ⟨4, 4⟩⟩), (12, ⟨.Pawn, .Black, ⟨4, 3⟩⟩)]

/-- Witness for C5: accepted en-passant capture e5xd6 marks the black
pawn on d5 as taken, and d6 was empty beforehand. -/
theorem c5_en_passant_capture_witness :
    w5Game.position.piece_on ⟨5, 3⟩ = none ∧
    ∀ ep ∈ w5Pieces, ep.2.square = (⟨4, 3⟩ : Square) →
      ep.1 ∈ (move_piece w5Game w5Pieces (some ⟨5, 3⟩) true
        (some 11)).1.taken :=
  c5_en_passant_capture w5Game w5Pieces ⟨5, 3⟩ ⟨4, 3⟩ 11
    (11, ⟨.Pawn, .White, ⟨4, 4⟩⟩) rfl rfl rfl rfl rfl
    (by intro s t hs ht
        simp only [w5Game, w5Board] at hs
        cases hs
        simp only [w5Game, w5Board, Square.forward, Square.up] at ht
        split at ht
        · cases ht
          rfl
        · cases ht)
    (by decide) rfl

/-- C6: a click on a square processed while no piece is selected attempts
no move and mutates nothing, and a piece becomes selected exactly when
the clicked square holds a live registry piece of the side-to-move
color. -/
theorem c6_select_iff_own_live_piece (game : Game) (pieces : Registry)
    (sel : SelState) (sq : Square)
    (hp : sel.selected_piece = none) :
    process_click game pieces sel (.onSquare sq) =
      (game, pieces,
        ⟨some sq, (pieces.find? (fun ep => decide (ep.2.square = sq ∧ ep.2.color = game.position.side_to_move))).map (fun ep => ep.1)⟩,
        ⟨false, pieces, [], [], false⟩) ∧
    (((pieces.find? (fun ep => decide (ep.2.square = sq ∧ ep.2.color = game.position.side_to_move))).map (fun ep => ep.1)).isSome ↔
      ∃ ep ∈ pieces, ep.2.square = sq ∧
        ep.2.color = game.position.side_to_move) := by
  constructor
  · unfold process_click select_square
    simp only [hp, move_piece_no_piece]
    rw [select_piece_run game pieces ⟨some sq, none⟩ sq rfl rfl]
    rfl
  · rw [Option.isSome_map']
    simp [List.find?_isSome]

/-- Fixture for the C6 witness: a white knight on b1 with White to move,
and nothing selected. -/
def w6Board : Board :=
  { piece_on := fun _ => none, en_passant := none, side_to_move := .White }

/-- Fixture for the C6 witness. -/
def w6Game : Game :=
  { position := w6Board, legal := fun _ => true, next := fun _ => w6Board }

/-- Fixture for the C6 witness. -/
def w6Pieces : Registry := [(9, ⟨.Knight, .White, ⟨0, 1⟩⟩)]

/-- Witness for C6 at a concrete click on the knight's square. -/
theorem c6_select_iff_own_live_piece_witness :
    process_click w6Game w6Pieces ⟨none, none⟩ (.onSquare ⟨0, 1⟩) =
      (w6Game, w6Pieces,
        ⟨some ⟨0, 1⟩, (w6Pieces.find? (fun ep => decide (ep.2.square = ⟨0, 1⟩ ∧ ep.2.color = w6Game.position.side_to_move))).map (fun ep => ep.1)⟩,
        ⟨false, w6Pieces, [], [], false⟩) ∧
    (((w6Pieces.find? (fun ep => decide (ep.2.square = ⟨0, 1⟩ ∧ ep.2.color = w6Game.position.side_to_move))).map (fun ep => ep.1)).isSome ↔
      ∃ ep ∈ w6Pieces, ep.2.square = (⟨0, 1⟩ : Square) ∧
        ep.2.color = w6Game.position.side_to_move) :=
  c6_select_iff_own_live_piece w6Game w6Pieces ⟨none, none⟩ ⟨0, 1⟩ rfl

/-- C7: `despawn_taken_pieces` announces a winner — and sends the
terminal exit event — exactly when some `Taken` registry row holds a
King, and every announced winner is the color opposite that captured
King's color. -/
theorem c7_game_end_on_king_capture (pieces : Registry)
    (taken : List Nat) :
    ((despawn_taken_pieces pieces taken).1 ≠ [] ↔
      ∃ ep ∈ pieces, taken.contains ep.1 = true ∧
        ep.2.piece_type = PieceType.King) ∧
    ∀ w ∈ (despawn_taken_pieces pieces taken).1,
      ∃ ep ∈ pieces, taken.contains ep.1 = true ∧
        ep.2.piece_type = PieceType.King ∧ w = ep.2.color.opposite := by
  have hmem : ∀ w, w ∈ (despawn_taken_pieces pieces taken).1 ↔
      ∃ ep ∈ pieces, taken.contains ep.1 = true ∧
        ep.2.piece_type = PieceType.King ∧ w = ep.2.color.opposite := by
    intro w
    simp only [despawn_taken_pieces, List.mem_map, List.mem_filter]
    constructor
    · rintro ⟨ep, ⟨⟨h1, h2⟩, h3⟩, h4⟩
      exact ⟨ep, h1, h2, by simpa using h3, h4.symm⟩
    · rintro ⟨ep, h1, h2, h3, h4⟩
      exact ⟨ep, ⟨⟨h1, h2⟩, by simpa using h3⟩, h4.symm⟩
  refine ⟨?_, fun w hw => (hmem w).1 hw⟩
  rw [ne_eq, List.eq_nil_iff_forall_not_mem]
  push_neg
  constructor
  · rintro ⟨w, hw⟩
    obtain ⟨ep, h1, h2, h3, -⟩ := (hmem w).1 hw
    exact ⟨ep, h1, h2, h3⟩
  · rintro ⟨ep, h1, h2, h3⟩
    exact ⟨ep.2.color.opposite, (hmem _).2 ⟨ep, h1, h2, h3, rfl⟩⟩

/-- Fixture for the C7 witness: a black king and a white pawn; the king's
entity is in the taken list. -/
def w7Pieces : Registry :=
  [(4, ⟨.King, .Black, ⟨7, 4⟩⟩), (6, ⟨.Pawn, .White, ⟨1, 0⟩⟩)]

/-- Witness for C7 at a concrete captured black king. -/
theorem c7_game_end_on_king_capture_witness :
    ((despawn_taken_pieces w7Pieces [4]).1 ≠ [] ↔
      ∃ ep ∈ w7Pieces, [4].contains ep.1 = true ∧
        ep.2.piece_type = PieceType.King) ∧
    ∀ w ∈ (despawn_taken_pieces w7Pieces [4]).1,
      ∃ ep ∈ w7Pieces, [4].contains ep.1 = true ∧
        ep.2.piece_type = PieceType.King ∧ w = ep.2.color.opposite :=
  c7_game_end_on_king_capture w7Pieces [4]

/-- C8: an accepted move marks at most one registry row `Taken`, so the
count of surviving (alive) rows after `despawn_taken_pieces` is
non-increasing and decreases by at most one.  Uses the spec invariants
that live rows occupy pairwise distinct squares and have distinct entity
ids, the engine guarantee that the mover has the side-to-move color, and
well-formedness of the engine board. -/
theorem c8_alive_count_decreases_at_most_one (game : Game)
    (pieces : Registry) (sq : Square) (e : Nat) (row : Nat × Piece)
    (hfind : pieces.find? (fun ep => ep.1 == e) = some row)
    (hndsq : (pieces.map (fun ep => ep.2.square)).Nodup)
    (hndid : (pieces.map (fun ep => ep.1)).Nodup)
    (hWF : game.position.WellFormed)
    (hcol : row.2.color = game.position.side_to_move)
    (hlegal : game.legal ⟨row.2.square, sq,
      inferPromotion row.2.piece_type row.2.color sq⟩ = true) :
    (move_piece game pieces (some sq) true (some e)).1.taken.length ≤ 1 ∧
    (despawn_taken_pieces
      (move_piece game pieces (some sq) true (some e)).1.pieces
      (move_piece game pieces (some sq) true (some e)).1.taken).2.length ≤
      pieces.length ∧
    pieces.length ≤ (despawn_taken_pieces
      (move_piece game pieces (some sq) true (some e)).1.pieces
      (move_piece game pieces (some sq) true (some e)).1.taken).2.length
      + 1 := by
  rw [move_piece_accepted_taken game pieces sq e row hfind hlegal,
    move_piece_accepted_pieces game pieces sq e row hfind hlegal]
  have htaken : (applyMove row.2.square sq row.2.color row.2.piece_type
      (inferPromotion row.2.piece_type row.2.color sq)
      game.position pieces).2.1.length ≤ 1 :=
    applyMove_taken_length_le_one _ _ _ _ _ _ _ hndsq hWF hcol
  have hlen : (applyMove row.2.square sq row.2.color row.2.piece_type
      (inferPromotion row.2.piece_type row.2.color sq)
      game.position pieces).1.length = pieces.length :=
    applyMove_pieces_length _ _ _ _ _ _ _
  have hids : (applyMove row.2.square sq row.2.color row.2.piece_type
      (inferPromotion row.2.piece_type row.2.color sq)
      game.position pieces).1.map (fun ep => ep.1) =
      pieces.map (fun ep => ep.1) := by
    rw [applyMove_pieces]
    rw [List.map_map]
    rfl
  set A := (applyMove row.2.square sq row.2.color row.2.piece_type
    (inferPromotion row.2.piece_type row.2.color sq)
    game.position pieces).1 with hA
  set T := (applyMove row.2.square sq row.2.color row.2.piece_type
    (inferPromotion row.2.piece_type row.2.color sq)
    game.position pieces).2.1 with hT
  have hdespawn : (despawn_taken_pieces A T).2 =
      A.filter (fun ep => ! T.contains ep.1) := rfl
  have hsplit : A.length =
      (A.filter (fun ep => T.contains ep.1)).length +
      (A.filter (fun ep => ! T.contains ep.1)).length :=
    List.length_eq_length_filter_add (fun ep => T.contains ep.1)
  have hremoved : (A.filter (fun ep => T.contains ep.1)).length ≤ 1 := by
    match T, htaken with
    | [], _ =>
      simp
    | [t], _ =>
      apply length_filter_le_one_of_key A _ (fun ep => ep.1) t
        (by rw [hids]; exact hndid)
      intro a ha hf
      simpa using hf
    | t1 :: t2 :: ts, htaken => simp at htaken
  refine ⟨htaken, ?_, ?_⟩
  · rw [hdespawn]
    calc (A.filter (fun ep => ! T.contains ep.1)).length
        ≤ A.length := List.length_filter_le _ _
      _ = pieces.length := hlen
  · rw [hdespawn]
    omega

/-- Fixture for the C8 witness: an all-accepting engine with an empty
en-passant square. -/
def w8Board : Board :=
  { piece_on := fun _ => none, en_passant := none, side_to_move := .White }

/-- Fixture for the C8 witness. -/
def w8Game : Game :=
  { position := w8Board, legal := fun _ => true, next := fun _ => w8Board }

/-- Fixture for the C8 witness: a white pawn on e2 about to move. -/
def w8Pieces : Registry := [(1, ⟨.Pawn, .White, ⟨1, 4⟩⟩)]

/-- Witness for C8 at a concrete accepted pawn push. -/
theorem c8_alive_count_decreases_at_most_one_witness :
    (move_piece w8Game w8Pieces (some ⟨2, 4⟩) true (some 1)).1.taken.length ≤ 1 ∧
    (despawn_taken_pieces
      (move_piece w8Game w8Pieces (some ⟨2, 4⟩) true (some 1)).1.pieces
      (move_piece w8Game w8Pieces (some ⟨2, 4⟩) true (some 1)).1.taken).2.length ≤
      w8Pieces.length ∧
    w8Pieces.length ≤ (despawn_taken_pieces
      (move_piece w8Game w8Pieces (some ⟨2, 4⟩) true (some 1)).1.pieces
      (move_piece w8Game w8Pieces (some ⟨2, 4⟩) true (some 1)).1.taken).2.length
      + 1 :=
  c8_alive_count_decreases_at_most_one w8Game w8Pieces ⟨2, 4⟩ 1
    (1, ⟨.Pawn, .White, ⟨1, 4⟩⟩) rfl (by decide) (by decide)
    (by intro s t hs ht
        simp [w8Game, w8Board] at hs)
    rfl rfl

/-- The castle branch on a rook of the mover's color on the a-file, for a
king move of more than one file toward the a-file: the rook is relocated
to `right()` of the king's destination, falling back to its own square on
`None`. -/
theorem castleStep_rookA (old new : Square) (col : PieceColor) (r : Piece)
    (hty : r.piece_type = PieceType.Rook) (hcol : r.color = col)
    (hd : 1 < (old.file.val : Int) - (new.file.val : Int))
    (hfa : r.square.file = fileA) :
    castleStep old new col PieceType.King r =
      { r with square := (new.right).getD r.square } := by
  have hna : 1 < ((old.file.val : Int) - (new.file.val : Int)).natAbs := by
    omega
  have hpos : (0 : Int) < (old.file.val : Int) - (new.file.val : Int) := by
    omega
  cases hr : new.right with
  | some t => simp [castleStep, hty, hcol, hna, hpos, hfa, hr]
  | none =>
    simp [castleStep, hty, hcol, hna, hpos, hfa, hr]
    rw [← hty, ← hcol]

/-- The castle branch on a rook of the mover's color on the h-file, for a
king move of more than one file toward the h-file: the rook is relocated
to `left()` of the king's destination, falling back to its own square on
`None`. -/
theorem castleStep_rookH (old new : Square) (col : PieceColor) (r : Piece)
    (hty : r.piece_type = PieceType.Rook) (hcol : r.color = col)
    (hd : (old.file.val : Int) - (new.file.val : Int) < -1)
    (hfh : r.square.file = fileH) :
    castleStep old new col PieceType.King r =
      { r with square := (new.left).getD r.square } := by
  have hna : 1 < ((old.file.val : Int) - (new.file.val : Int)).natAbs := by
    omega
  have hpos : ¬ (0 : Int) < (old.file.val : Int) - (new.file.val : Int) := by
    omega
  cases hr : new.left with
  | some t => simp [castleStep, hty, hcol, hna, hpos, hfh, hr]
  | none =>
    simp [castleStep, hty, hcol, hna, hpos, hfh, hr]
    rw [← hty, ← hcol]

/-- C9: the castle-branch rook relocation is total.  The new rook square
is computed through the Option-returning `right()` / `left()` of the
king's destination, and a `None` simply leaves the rook in place; but
under the castle preconditions — a king move of more than one file in the
corresponding direction — the lookup always succeeds and the rook ends on
the returned square, so the `None` fallback is unreachable. -/
theorem c9_castle_rook_relocation_total (old new : Square)
    (col : PieceColor) (promo : Option PieceType) (b : Board) (r : Piece)
    (hty : r.piece_type = PieceType.Rook) (hcol : r.color = col)
    (h1 : r.square ≠ old) (h2 : r.square ≠ new) :
    (1 < (old.file.val : Int) - (new.file.val : Int) →
      r.square.file = fileA →
      ∃ t, new.right = some t ∧
        (updatePiece old new col PieceType.King promo b r).1.square = t) ∧
    ((old.file.val : Int) - (new.file.val : Int) < -1 →
      r.square.file = fileH →
      ∃ t, new.left = some t ∧
        (updatePiece old new col PieceType.King promo b r).1.square = t) := by
  have hstep : moveOrCaptureStep old new promo b r = (r, false, false) :=
    moveOrCaptureStep_other old new promo b r h1 h2
  constructor
  · intro hd hfa
    have hlt : new.file.val + 1 < 8 := by
      have := old.file.isLt
      omega
    obtain ⟨t, ht⟩ : ∃ t, new.right = some t := by
      unfold Square.right
      rw [dif_pos hlt]
      exact ⟨_, rfl⟩
    refine ⟨t, ht, ?_⟩
    simp only [updatePiece_eq, hstep]
    rw [castleStep_rookA old new col r hty hcol hd hfa, ht]
    rfl
  · intro hd hfh
    have hlt : 0 < new.file.val := by
      have := old.file.isLt
      have := new.file.isLt
      omega
    obtain ⟨t, ht⟩ : ∃ t, new.left = some t := by
      unfold Square.left
      rw [dif_pos hlt]
      exact ⟨_, rfl⟩
    refine ⟨t, ht, ?_⟩
    simp only [updatePiece_eq, hstep]
    rw [castleStep_rookH old new col r hty hcol hd hfh, ht]
    rfl

/-- Fixture for the C9 witness. -/
def w9Board : Board :=
  { piece_on := fun _ => none, en_passant := none, side_to_move := .White }

/-- Witness for C9: concrete long castle e1-c1 with the rook on a1, and
short castle e1-g1 with the rook on h1. -/
theorem c9_castle_rook_relocation_total_witness :
    (∃ t, (⟨0, 2⟩ : Square).right = some t ∧
      (updatePiece ⟨0, 4⟩ ⟨0, 2⟩ PieceColor.White PieceType.King none
        w9Board ⟨.Rook, .White, ⟨0, 0⟩⟩).1.square = t) ∧
    (∃ t, (⟨0, 6⟩ : Square).left = some t ∧
      (updatePiece ⟨0, 4⟩ ⟨0, 6⟩ PieceColor.White PieceType.King none
        w9Board ⟨.Rook, .White, ⟨0, 7⟩⟩).1.square = t) :=
  ⟨(c9_castle_rook_relocation_total ⟨0, 4⟩ ⟨0, 2⟩ PieceColor.White none
      w9Board ⟨.Rook, .White, ⟨0, 0⟩⟩ rfl rfl (by decide) (by decide)).1
      (by decide) rfl,
   (c9_castle_rook_relocation_total ⟨0, 4⟩ ⟨0, 6⟩ PieceColor.White none
      w9Board ⟨.Rook, .White, ⟨0, 7⟩⟩ rfl rfl (by decide) (by decide)).2
      (by decide) rfl⟩

/-- C10: the piece an accepted move relocates is identified by square
equality against the selected row's square, not by entity identity: every
registry row standing on the mover's original square ends on the
destination, with its type promoted per the inferred promotion.  Under
the invariant that live rows occupy pairwise distinct squares, that row
is exactly the selected one. -/
theorem c10_relocation_by_square_equality (game : Game)
    (pieces : Registry) (sq : Square) (e : Nat) (row : Nat × Piece)
    (hfind : pieces.find? (fun ep => ep.1 == e) = some row)
    (hndsq : (pieces.map (fun ep => ep.2.square)).Nodup)
    (hlegal : game.legal ⟨row.2.square, sq,
      inferPromotion row.2.piece_type row.2.color sq⟩ = true) :
    ∀ ep ∈ pieces, ep.2.square = row.2.square →
      (ep.1, { ep.2 with square := sq, piece_type := (inferPromotion row.2.piece_type row.2.color sq).getD ep.2.piece_type }) ∈
        (move_piece game pieces (some sq) true (some e)).1.pieces := by
  intro ep hmem hsq
  have heq : ep = row :=
    List.inj_on_of_nodup_map hndsq hmem
      (List.mem_of_find?_eq_some hfind) hsq
  rw [move_piece_accepted_pieces game pieces sq e row hfind hlegal,
    applyMove_pieces]
  have himg : (ep.1, (updatePiece row.2.square sq row.2.color
      row.2.piece_type (inferPromotion row.2.piece_type row.2.color sq)
      game.position ep.2).1) ∈ pieces.map (fun q => (q.1,
        (updatePiece row.2.square sq row.2.color row.2.piece_type
          (inferPromotion row.2.piece_type row.2.color sq)
          game.position q.2).1)) :=
    List.mem_map_of_mem _ hmem
  rw [heq] at himg ⊢
  rwa [updatePiece_mover row.2.square sq game.position row.2 rfl] at himg

/-- Fixture for the C10 witness. -/
def w10Board : Board :=
  { piece_on := fun _ => none, en_passant := none, side_to_move := .White }

/-- Fixture for the C10 witness. -/
def w10Game : Game :=
  { position := w10Board, legal := fun _ => true, next := fun _ => w10Board }

/-- Fixture for the C10 witness: a white bishop on c1 and a white pawn on
a2. -/
def w10Pieces : Registry :=
  [(2, ⟨.Bishop, .White, ⟨0, 2⟩⟩), (3, ⟨.Pawn, .White, ⟨1, 0⟩⟩)]

/-- Witness for C10: the bishop row, selected by entity 2, is relocated
to the clicked square by square equality. -/
theorem c10_relocation_by_square_equality_witness :
    ((2 : Nat), (⟨.Bishop, .White, ⟨2, 4⟩⟩ : Piece)) ∈
      (move_piece w10Game w10Pieces (some ⟨2, 4⟩) true (some 2)).1.pieces :=
  c10_relocation_by_square_equality w10Game w10Pieces ⟨2, 4⟩ 2
    (2, ⟨.Bishop, .White, ⟨0, 2⟩⟩) rfl (by decide) rfl
    (2, ⟨.Bishop, .White, ⟨0, 2⟩⟩) (by decide) rfl

end BevyChess
